import Mathlib

/-!
# Verification of the matchbox masked-batch algebra

Shallow embedding of `src/matchbox/functional.py`.  Dense tensors are
modelled as a shape (list of axis extents) together with a row-major flat
list of integer entries; torch broadcasting is modelled by reading an
axis of extent 1 at position 0 and by right-aligning shapes of different
rank, exactly as torch does.  A `MaskedBatch` is the triple
`(data, mask, dims)` of the source library.  Python exceptions are
modelled with `Except PyErr`.
-/

namespace Matchbox

/-- Number of elements of a shape: the product of its axis extents. -/
def prodl : List Nat → Nat
  | [] => 1
  | s :: r => s * prodl r

/-- Row-major flat offset of a multi-index in a tensor of the given shape. -/
def flat : List Nat → List Nat → Nat
  | _ :: sr, i :: ir => i * prodl sr + flat sr ir
  | _, _ => 0

/-- Inverse of `flat`: the row-major multi-index of flat offset `n`. -/
def unflat : List Nat → Nat → List Nat
  | [], _ => []
  | _ :: sr, n => (n / prodl sr) :: unflat sr (n % prodl sr)

/-- A multi-index is valid for a shape when it has the same rank and every
component is below the corresponding extent. -/
def validIdx : List Nat → List Nat → Bool
  | [], [] => true
  | s :: sr, i :: ir => decide (i < s) && validIdx sr ir
  | _, _ => false

/-- Broadcasting read: on an axis of extent 1 every index reads position 0. -/
def bclamp : List Nat → List Nat → List Nat
  | s :: sr, i :: ir => (if s = 1 then 0 else i) :: bclamp sr ir
  | _, _ => []

/-- Broadcast two shapes given with their axes reversed (so aligned at the
trailing axis, as torch aligns them). -/
def bshapeR : List Nat → List Nat → List Nat
  | [], b => b
  | a, [] => a
  | x :: xs, y :: ys => max x y :: bshapeR xs ys

/-- The broadcast shape of two shapes, right-aligned as in torch. -/
def bshape (a b : List Nat) : List Nat := (bshapeR a.reverse b.reverse).reverse

/-- A dense numeric array: a shape and its row-major entries. -/
structure Tensor where
  shape : List Nat
  data : List ℤ
deriving DecidableEq, Repr

/-- Broadcasting read of an entry: a shorter-rank tensor is right-aligned
(leading index components are dropped), axes of extent 1 read position 0. -/
def Tensor.get (t : Tensor) (idx : List Nat) : ℤ :=
  t.data.getD (flat t.shape (bclamp t.shape (idx.drop (idx.length - t.shape.length)))) 0

/-- Pointwise binary operation with torch broadcasting: the model of every
elementwise binary torch kernel (`+`, `-`, `*`, `/`, comparisons, ...). -/
def Tensor.map2 (f : ℤ → ℤ → ℤ) (x y : Tensor) : Tensor :=
  ⟨bshape x.shape y.shape,
   (List.range (prodl (bshape x.shape y.shape))).map
     (fun k => f (x.get (unflat (bshape x.shape y.shape) k))
                 (y.get (unflat (bshape x.shape y.shape) k)))⟩

/-- A tensor is well-formed when its flat data has exactly `numel` entries. -/
def Tensor.wf (t : Tensor) : Prop := t.data.length = prodl t.shape

instance (t : Tensor) : Decidable t.wf := by
  unfold Tensor.wf
  infer_instance

theorem validIdx_length : ∀ {sh idx : List Nat},
    validIdx sh idx = true → idx.length = sh.length := by
  intro sh
  induction sh with
  | nil => intro idx h; cases idx with
    | nil => rfl
    | cons i ir => simp [validIdx] at h
  | cons s sr ih =>
    intro idx h
    cases idx with
    | nil => simp [validIdx] at h
    | cons i ir =>
      simp only [validIdx, Bool.and_eq_true, decide_eq_true_eq] at h
      simp [ih h.2]

theorem flat_lt : ∀ {sh idx : List Nat},
    validIdx sh idx = true → flat sh idx < prodl sh := by
  intro sh
  induction sh with
  | nil => intro idx h; cases idx with
    | nil => simp [flat, prodl]
    | cons i ir => simp [validIdx] at h
  | cons s sr ih =>
    intro idx h
    cases idx with
    | nil => simp [validIdx] at h
    | cons i ir =>
      simp only [validIdx, Bool.and_eq_true, decide_eq_true_eq] at h
      have hf := ih h.2
      simp only [flat, prodl]
      calc i * prodl sr + flat sr ir < i * prodl sr + prodl sr := by omega
        _ = (i + 1) * prodl sr := by ring
        _ ≤ s * prodl sr := Nat.mul_le_mul_right _ h.1

theorem unflat_flat : ∀ {sh idx : List Nat},
    validIdx sh idx = true → unflat sh (flat sh idx) = idx := by
  intro sh
  induction sh with
  | nil => intro idx h; cases idx with
    | nil => rfl
    | cons i ir => simp [validIdx] at h
  | cons s sr ih =>
    intro idx h
    cases idx with
    | nil => simp [validIdx] at h
    | cons i ir =>
      simp only [validIdx, Bool.and_eq_true, decide_eq_true_eq] at h
      have hf : flat sr ir < prodl sr := flat_lt h.2
      have hP : 0 < prodl sr := by omega
      simp only [flat, unflat]
      rw [show i * prodl sr + flat sr ir = flat sr ir + prodl sr * i by ring]
      rw [Nat.add_mul_div_left _ _ hP, Nat.div_eq_of_lt hf,
          Nat.add_mul_mod_self_left, Nat.mod_eq_of_lt hf]
      simp [ih h.2]

theorem unflat_valid : ∀ {sh : List Nat} {k : Nat},
    k < prodl sh → validIdx sh (unflat sh k) = true := by
  intro sh
  induction sh with
  | nil => intro k _; rfl
  | cons s sr ih =>
    intro k h
    have hP : 0 < prodl sr := by
      rcases Nat.eq_zero_or_pos (prodl sr) with h0 | h0
      · simp [prodl, h0] at h
      · exact h0
    simp only [unflat, validIdx, Bool.and_eq_true, decide_eq_true_eq]
    constructor
    · rw [Nat.div_lt_iff_lt_mul hP]
      simpa [prodl, Nat.mul_comm] using h
    · exact ih (Nat.mod_lt _ hP)

theorem bclamp_valid : ∀ {sh idx : List Nat},
    validIdx sh idx = true → bclamp sh idx = idx := by
  intro sh
  induction sh with
  | nil => intro idx h; cases idx with
    | nil => rfl
    | cons i ir => simp [validIdx] at h
  | cons s sr ih =>
    intro idx h
    cases idx with
    | nil => simp [validIdx] at h
    | cons i ir =>
      simp only [validIdx, Bool.and_eq_true, decide_eq_true_eq] at h
      simp only [bclamp, ih h.2]
      rcases eq_or_ne s 1 with h1 | h1
      · have : i = 0 := by omega
        simp [h1, this]
      · simp [h1]

theorem getD_range_map (g : Nat → ℤ) {N k : Nat} (h : k < N) :
    ((List.range N).map g).getD k 0 = g k := by
  have hk : k < ((List.range N).map g).length := by simpa using h
  rw [List.getD_eq_getElem _ _ hk]
  simp

/-- On a valid index, `get` is the plain row-major lookup. -/
theorem Tensor.get_valid (t : Tensor) {idx : List Nat}
    (h : validIdx t.shape idx = true) :
    t.get idx = t.data.getD (flat t.shape idx) 0 := by
  simp only [Tensor.get]
  rw [validIdx_length h, Nat.sub_self, List.drop_zero, bclamp_valid h]

/-- Key pointwise semantics of the broadcast binary kernel. -/
theorem map2_get (f : ℤ → ℤ → ℤ) (x y : Tensor) {idx : List Nat}
    (h : validIdx (bshape x.shape y.shape) idx = true) :
    (Tensor.map2 f x y).get idx = f (x.get idx) (y.get idx) := by
  rw [Tensor.get_valid _ (show validIdx (Tensor.map2 f x y).shape idx = true from h)]
  simp only [Tensor.map2]
  rw [getD_range_map _ (flat_lt h), unflat_flat h]

theorem bshapeR_self : ∀ a : List Nat, bshapeR a a = a := by
  intro a
  induction a with
  | nil => rfl
  | cons x xs ih => simp [bshapeR, ih]

theorem bshapeR_absorb : ∀ a b : List Nat, bshapeR (bshapeR a b) b = bshapeR a b := by
  intro a
  induction a with
  | nil =>
    intro b
    have h1 : bshapeR [] b = b := by cases b <;> simp [bshapeR]
    rw [h1]
    exact bshapeR_self b
  | cons x xs ih =>
    intro b
    cases b with
    | nil => rfl
    | cons y ys =>
      simp only [bshapeR, ih ys]
      congr 1
      omega

/-- Broadcasting against a shape a second time changes nothing. -/
theorem bshape_absorb (a b : List Nat) : bshape (bshape a b) b = bshape a b := by
  simp [bshape, List.reverse_reverse, bshapeR_absorb]

/-- The §3 invariant on masks: every entry is 0 or 1. -/
def mask01 (t : Tensor) : Prop := ∀ v ∈ t.data, v = 0 ∨ v = 1

instance (t : Tensor) : Decidable (mask01 t) := by
  unfold mask01
  infer_instance

theorem mask01_get {t : Tensor} (h : mask01 t) (idx : List Nat) :
    t.get idx = 0 ∨ t.get idx = 1 := by
  simp only [Tensor.get]
  rcases Nat.lt_or_ge (flat t.shape (bclamp t.shape (idx.drop (idx.length - t.shape.length))))
      t.data.length with hn | hn
  · rw [List.getD_eq_getElem _ _ hn]
    exact h _ (List.getElem_mem hn)
  · rw [List.getD_eq_default _ _ hn]
    exact Or.inl rfl

/-- Multiplying by a 0/1 mask is idempotent: `(data * mask) * mask = data * mask`.
This is the algebraic heart of reduction zero-preservation. -/
theorem map2_mul_mask_absorb {d m : Tensor} (hm : mask01 m) :
    Tensor.map2 (· * ·) (Tensor.map2 (· * ·) d m) m = Tensor.map2 (· * ·) d m := by
  have hs : bshape (bshape d.shape m.shape) m.shape = bshape d.shape m.shape :=
    bshape_absorb _ _
  have hsh : (Tensor.map2 (· * ·) d m).shape = bshape d.shape m.shape := rfl
  conv_lhs => rw [Tensor.map2]
  conv_rhs => rw [Tensor.map2]
  simp only [hsh, hs]
  congr 1
  apply List.map_congr_left
  intro k hk
  have hk2 : k < prodl (bshape d.shape m.shape) := List.mem_range.mp hk
  have hv : validIdx (bshape d.shape m.shape) (unflat (bshape d.shape m.shape) k) = true :=
    unflat_valid hk2
  rw [map2_get _ _ _ hv]
  rcases mask01_get hm (unflat (bshape d.shape m.shape) k) with h0 | h1
  · simp [h0]
  · simp [h1]

/-- The Python exceptions raised by the source module (`ValueError`,
`NotImplementedError`, `IndexError`, `RuntimeError` from torch reshape,
`TypeError` from a bad call, `NameError` from an unbound name). -/
inductive PyErr
  | valueError
  | notImplementedError
  | indexError
  | runtimeError
  | typeError
  | nameError
deriving DecidableEq, Repr

instance {e a : Type} [DecidableEq e] [DecidableEq a] : DecidableEq (Except e a) := fun x y =>
  match x, y with
  | .ok v, .ok w =>
      if h : v = w then isTrue (by rw [h]) else isFalse (fun hc => h (by injection hc))
  | .error v, .error w =>
      if h : v = w then isTrue (by rw [h]) else isFalse (fun hc => h (by injection hc))
  | .ok _, .error _ => isFalse (fun hc => Except.noConfusion hc)
  | .error _, .ok _ => isFalse (fun hc => Except.noConfusion hc)

theorem ok_bind {a b : Type} (v : a) (f : a → Except PyErr b) :
    (Except.ok v : Except PyErr a).bind f = f v := rfl

theorem error_bind {a b : Type} (e : PyErr) (f : a → Except PyErr b) :
    (Except.error e : Except PyErr a).bind f = .error e := rfl

theorem ok_map {a b : Type} (v : a) (f : a → b) :
    (Except.ok v : Except PyErr a).map f = .ok (f v) := rfl

theorem error_map {a b : Type} (e : PyErr) (f : a → b) :
    (Except.error e : Except PyErr a).map f = .error e := rfl

/-- One component of a Python indexing tuple: an integer, a
`slice(start, stop, step)`, or `None`. -/
inductive PyIndex
  | int (i : Int)
  | slice (start stop step : Option Int)
  | nonei
deriving DecidableEq, Repr

/-- `slice(None)`, the full-range selector `:`. -/
def fullSlice : PyIndex := .slice none none none

/-- The positions selected by `slice(start, stop, step)` on an axis of
extent `n`, following CPython `PySlice_AdjustIndices` (a `0` step is
rejected earlier, in `axSel`). -/
def sliceIdxs (n : Nat) (start stop step : Option Int) : List Nat :=
  let st : Int := step.getD 1
  if st > 0 then
    let a : Int := match start with
      | none => 0
      | some v => if v < 0 then max (v + n) 0 else min v n
    let b : Int := match stop with
      | none => n
      | some v => if v < 0 then max (v + n) 0 else min v n
    let cnt : Nat := (max 0 (Int.fdiv (b - a + st - 1) st)).toNat
    (List.range cnt).map (fun k => (a + k * st).toNat)
  else
    let a : Int := match start with
      | none => n - 1
      | some v => if v < 0 then max (v + n) (-1) else min v (n - 1)
    let b : Int := match stop with
      | none => -1
      | some v => if v < 0 then max (v + n) (-1) else min v (n - 1)
    let cnt : Nat := (max 0 (Int.fdiv (b - a + st + 1) st)).toNat
    (List.range cnt).map (fun k => (a + k * st).toNat)

/-- What one index component does to one axis: collapse it to a single
position, or keep it with a chosen list of positions. -/
inductive AxSel
  | coll (j : Nat)
  | keep (js : List Nat)
deriving DecidableEq, Repr

/-- Resolve one index component on an axis of extent `n` (torch semantics:
negative integers count from the end, out-of-range integers raise). -/
def axSel (n : Nat) : PyIndex → Except PyErr AxSel
  | .int i =>
      let r : Int := if i < 0 then i + n else i
      if 0 ≤ r ∧ r < n then .ok (.coll r.toNat) else .error .indexError
  | .slice start stop step =>
      if step = some 0 then .error .valueError
      else .ok (.keep (sliceIdxs n start stop step))
  | .nonei => .error .notImplementedError

/-- Resolve an indexing tuple against a shape; axes beyond the tuple are
kept in full, more index components than axes raise. -/
def buildSels : List Nat → List PyIndex → Except PyErr (List AxSel)
  | sh, [] => .ok (sh.map (fun n => .keep (List.range n)))
  | [], _ :: _ => .error .indexError
  | n :: sh, ix :: rest =>
      (axSel n ix).bind (fun s => (buildSels sh rest).map (fun ss => s :: ss))

/-- Shape of the result of an indexing operation. -/
def outShape (sels : List AxSel) : List Nat :=
  sels.filterMap (fun s => match s with | .coll _ => none | .keep js => some js.length)

/-- Translate a result multi-index back to a source multi-index. -/
def srcIdx : List AxSel → List Nat → List Nat
  | [], _ => []
  | .coll j :: rest, ridx => j :: srcIdx rest ridx
  | .keep js :: rest, r :: ridx => js.getD r 0 :: srcIdx rest ridx
  | .keep js :: rest, [] => js.getD 0 0 :: srcIdx rest []

/-- Materialize the tensor selected by resolved index components. -/
def gather (t : Tensor) (sels : List AxSel) : Tensor :=
  ⟨outShape sels,
   (List.range (prodl (outShape sels))).map
     (fun k => t.get (srcIdx sels (unflat (outShape sels) k)))⟩

/-- `t[index]` for an indexing tuple, the torch basic-indexing semantics
used by the source (integers and slices). -/
def applyIndex (t : Tensor) (index : List PyIndex) : Except PyErr Tensor :=
  (buildSels t.shape index).map (gather t)

/-- Python tuple indexing `l[i]` with negative-index wraparound, as used on
the `dims` tuple (`batch.dims[dim - 1]`). -/
def pyGetBool (l : List Bool) (i : Int) : Except PyErr Bool :=
  let r : Int := if i < 0 then i + l.length else i
  if 0 ≤ r ∧ r < l.length then .ok (l.getD r.toNat false) else .error .indexError

/-- The MaskedBatch value of the library: padded data, a broadcastable 0/1
mask, and one dynamic-axis flag per non-batch axis (§3 of the spec). -/
structure MaskedBatch where
  data : Tensor
  mask : Tensor
  dims : List Bool
deriving DecidableEq, Repr

/-- An argument that is either a `MaskedBatch` or a plain torch value (a
tensor; a Python scalar is the rank-0 tensor). -/
inductive TorchVal
  | mb (b : MaskedBatch)
  | plain (t : Tensor)

/-- `_elementwise_binary(fn)` applied to a `MaskedBatch` left operand,
from `src/matchbox/functional.py` lines 165-178: if the right operand is
masked, `data = fn(data1, data2)`, `mask = mask1 * mask2`, and
`dims = tuple(b1 or b2 ...)`; otherwise `mask`/`dims` are inherited from
the left operand (`type_as` is the identity on our rational entries). -/
def elementwise_binary (fn : ℤ → ℤ → ℤ) (batch1 : MaskedBatch) (batch2 : TorchVal) :
    MaskedBatch :=
  match batch2 with
  | .mb b2 =>
      ⟨Tensor.map2 fn batch1.data b2.data,
       Tensor.map2 (· * ·) batch1.mask b2.mask,
       List.zipWith (· || ·) batch1.dims b2.dims⟩
  | .plain t =>
      ⟨Tensor.map2 fn batch1.data t, batch1.mask, batch1.dims⟩

/-- `torch.sum(t, dim, keepdim)` over one axis: the reduced shape drops the
axis (or keeps it with extent 1) and each output entry sums the input over
that axis. -/
def sumShape (sh : List Nat) (d : Nat) (keepdim : Bool) : List Nat :=
  if keepdim then sh.set d 1 else sh.eraseIdx d

/-- The source position read for output position `idx`, summation index `j`. -/
def sumSrc (d : Nat) (keepdim : Bool) (idx : List Nat) (j : Nat) : List Nat :=
  if keepdim then idx.set d j else List.insertIdx d j idx

def sumAxis (t : Tensor) (d : Nat) (keepdim : Bool) : Tensor :=
  ⟨sumShape t.shape d keepdim,
   (List.range (prodl (sumShape t.shape d keepdim))).map
     (fun k => ((List.range (t.shape.getD d 1)).map
       (fun j => t.get (sumSrc d keepdim (unflat (sumShape t.shape d keepdim) k) j))).sum)⟩

/-- `torch.sum`: with `dim=None` the sum of every entry as a 0-d tensor,
otherwise a one-axis reduction (negative `dim` counts from the end). -/
def torchSum (t : Tensor) (dim : Option Int) (keepdim : Bool) : Tensor :=
  match dim with
  | none => ⟨[], [t.data.sum]⟩
  | some d => sumAxis t (if d < 0 then (d + t.shape.length).toNat else d.toNat) keepdim

/-- `_reduce(fn, zero_preserving)` from `src/matchbox/functional.py` lines
197-224.  `fn` is the torch reduction kernel (e.g. `torchSum`).  With
`dim=None` a non-zero-preserving kernel raises if any axis is dynamic, and
the result mask indexes the mask at `(:, 0, ..., 0)`.  With a given `dim`
(adjusted when negative) a non-zero-preserving kernel raises if that axis
is dynamic; the mask keeps a size-1 slice of the reduced axis under
`keepdim` and drops it otherwise, and `dims` sets/drops the reduced flag.
The data is always `fn(batch.data * batch.mask, dim, keepdim)`. -/
def reduce (fn : Tensor → Option Int → Bool → Tensor) (zero_preserving : Bool)
    (batch : MaskedBatch) (dim0 : Option Int) (keepdim : Bool) :
    Except PyErr MaskedBatch :=
  match dim0 with
  | none =>
      if !zero_preserving && batch.dims.any id then .error .notImplementedError
      else
        (applyIndex batch.mask (fullSlice :: batch.dims.map (fun _ => PyIndex.int 0))).map
          (fun mask =>
            ⟨fn (Tensor.map2 (· * ·) batch.data batch.mask) none keepdim, mask, []⟩)
  | some dimIn =>
      let dim : Int := if dimIn < 0 then dimIn + (batch.dims.length + 1) else dimIn
      (pyGetBool batch.dims (dim - 1)).bind (fun flag =>
        if !zero_preserving && flag then .error .notImplementedError
        else if keepdim then
          (applyIndex batch.mask ((List.range batch.mask.shape.length).map
              (fun i => if (i : Int) = dim then PyIndex.slice (some 0) (some 1) none
                        else fullSlice))).map
            (fun mask =>
              ⟨fn (Tensor.map2 (· * ·) batch.data batch.mask) (some dim) keepdim, mask,
               batch.dims.enum.map (fun p => if (p.1 : Int) = dim - 1 then false else p.2)⟩)
        else
          (applyIndex batch.mask ((List.range batch.mask.shape.length).map
              (fun i => if (i : Int) = dim then PyIndex.int 0 else fullSlice))).map
            (fun mask =>
              ⟨fn (Tensor.map2 (· * ·) batch.data batch.mask) (some dim) keepdim, mask,
               batch.dims.enum.filterMap
                 (fun p => if (p.1 : Int) = dim - 1 then none else some p.2)⟩))

/-- `batch.data * batch.mask` substituted for the data: the batch with its
padding positions zeroed. -/
def zeroPadding (batch : MaskedBatch) : MaskedBatch :=
  ⟨Tensor.map2 (· * ·) batch.data batch.mask, batch.mask, batch.dims⟩

/-- The rewriting loop of `getitem` (lines 247-256) over `index[1:]` zipped
with `dims`: on a dynamic axis a negative integer raises, a slice with a
negative stop raises when it has a step or a start and is otherwise
rewritten to `slice(-stop, None)`; entries beyond `dims` pass through. -/
def rewriteOne (flag : Bool) (ix : PyIndex) : Except PyErr PyIndex :=
  if flag then
    match ix with
    | .int i =>
        if i < 0 then (.error .notImplementedError : Except PyErr PyIndex) else .ok ix
    | .slice start stop step =>
        match stop with
        | some s =>
            if s < 0 then
              if step ≠ none ∨ start ≠ none then .error .notImplementedError
              else .ok (PyIndex.slice (some (-s)) none none)
            else .ok ix
        | none => .ok ix
    | .nonei => .ok ix
  else .ok ix

def rewriteDyn : List PyIndex → List Bool → Except PyErr (List PyIndex)
  | [], _ => .ok []
  | ix :: rest, [] => (rewriteDyn rest []).map (fun r => ix :: r)
  | ix :: rest, flag :: flags =>
      (rewriteOne flag ix).bind
        (fun ix2 => (rewriteDyn rest flags).map (fun r => ix2 :: r))

/-- The mask index of `getitem` (line 258): zip the (rewritten) index with
`(True,) + dims`, use the entry on dynamic axes, `0` for an integer on a
static axis, and the full slice otherwise (zip truncation as in Python). -/
def maskIndexOf : List PyIndex → List Bool → List PyIndex
  | ix :: rest, flag :: flags =>
      (if flag then ix
       else match ix with
            | .int _ => PyIndex.int 0
            | _ => fullSlice) :: maskIndexOf rest flags
  | _, _ => []

/-- The resulting `dims` of `getitem` (lines 260-262): zip `index[1:]`
(padded with full slices) against `dims` and keep the flags whose index
entry is not an integer. -/
def dimsAfter : List PyIndex → List Bool → List Bool
  | _, [] => []
  | [], d :: ds => d :: dimsAfter [] ds
  | ix :: rest, d :: ds =>
      (match ix with | .int _ => [] | _ => [d]) ++ dimsAfter rest ds

/-- `getitem` from `src/matchbox/functional.py` lines 240-263.  The first
index must be the full slice `:` (the same `ValueError` is raised when the
index is not a tuple at all), `None` entries raise, the data is indexed
with the original tuple, the dynamic-axis entries are checked/rewritten,
and the mask is indexed with the static axes collapsed to position 0. -/
def getitem (batch : MaskedBatch) (index : List PyIndex) : Except PyErr MaskedBatch :=
  if index.head? ≠ some fullSlice then .error .valueError
  else if index.contains PyIndex.nonei then .error .notImplementedError
  else
    (applyIndex batch.data index).bind (fun data =>
      (rewriteDyn index.tail batch.dims).bind (fun index1 =>
        (applyIndex batch.mask
            (maskIndexOf (fullSlice :: index1) (true :: batch.dims))).map
          (fun mask => ⟨data, mask, dimsAfter index1 batch.dims⟩)))

/-- `mask.new(n, n).fill_(1).triu(diag)`: ones on and above the `diag`-th
diagonal (`row + diag ≤ col`), zeros below. -/
def triuOnes (sh : List Nat) (diag : Int) : Tensor :=
  ⟨sh, (List.range (prodl sh)).map (fun k =>
    if ((unflat sh k).getD 0 0 : Int) + diag ≤ ((unflat sh k).getD 1 0 : Int) then 1 else 0)⟩

/-- `mask.new(n, n).fill_(1).tril(diag)`: ones on and below the `diag`-th
diagonal (`col ≤ row + diag`), zeros above. -/
def trilOnes (sh : List Nat) (diag : Int) : Tensor :=
  ⟨sh, (List.range (prodl sh)).map (fun k =>
    if ((unflat sh k).getD 1 0 : Int) ≤ ((unflat sh k).getD 0 0 : Int) + diag then 1 else 0)⟩

/-- `t.unsqueeze(0)`: a new leading axis of extent 1 (same flat data). -/
def unsqueeze0 (t : Tensor) : Tensor := ⟨1 :: t.shape, t.data⟩

/-- `causal_mask(batch, in_dim, out_dim)` from lines 447-469, MaskedBatch
branch: for `in_dim=1, out_dim=2` the mask is multiplied by the broadcast
upper-triangular ones of the non-batch data shape (for `in_dim=2,
out_dim=1` the lower-triangular ones); other arguments raise.  Both
participating axes are flagged dynamic in the result. -/
def causal_mask (batch : MaskedBatch) (in_dim out_dim : Nat) : Except PyErr MaskedBatch :=
  if in_dim = 1 ∧ out_dim = 2 then
    .ok ⟨batch.data,
         Tensor.map2 (· * ·) batch.mask (unsqueeze0 (triuOnes batch.data.shape.tail 0)),
         batch.dims.enum.map
           (fun p => if p.1 + 1 = in_dim ∨ p.1 + 1 = out_dim then true else p.2)⟩
  else if in_dim = 2 ∧ out_dim = 1 then
    .ok ⟨batch.data,
         Tensor.map2 (· * ·) batch.mask (unsqueeze0 (trilOnes batch.data.shape.tail 0)),
         batch.dims.enum.map
           (fun p => if p.1 + 1 = in_dim ∨ p.1 + 1 = out_dim then true else p.2)⟩
  else .error .notImplementedError

/-- `1 - mask`: the reflected scalar subtraction, elementwise on the data. -/
def scalarRsub (c : ℤ) (t : Tensor) : Tensor := ⟨t.shape, t.data.map (fun x => c - x)⟩

/-- `_synchronize` from lines 499-505: raises if any axis is dynamic, else
returns the batch with `mask + (1 - mask)` (all ones) as its mask. -/
def synchronize (batch : MaskedBatch) : Except PyErr MaskedBatch :=
  if batch.dims.any id then .error .valueError
  else .ok ⟨batch.data, Tensor.map2 (· + ·) batch.mask (scalarRsub 1 batch.mask), batch.dims⟩

/-- `F.linear(x, w, bias)`: contract the trailing axis of `x` against the
second axis of `w` and add the bias; the trailing extent becomes `w`'s
leading extent. -/
def flinear (x w : Tensor) (bias : Option Tensor) : Tensor :=
  ⟨x.shape.dropLast ++ [w.shape.headD 1],
   (List.range (prodl (x.shape.dropLast ++ [w.shape.headD 1]))).map (fun k =>
     ((List.range (x.shape.getLast?.getD 1)).map (fun j =>
        x.get ((unflat (x.shape.dropLast ++ [w.shape.headD 1]) k).dropLast ++ [j]) *
        w.get [(unflat (x.shape.dropLast ++ [w.shape.headD 1]) k).getLast?.getD 0, j])).sum
     + (match bias with
        | none => 0
        | some bb => bb.get [(unflat (x.shape.dropLast ++ [w.shape.headD 1]) k).getLast?.getD 0]))⟩

/-- `linear` from lines 22-28, MaskedBatch branch: `batch.dims[-1]` raises
`IndexError` on an empty `dims` tuple, a dynamic trailing axis raises
`ValueError`, otherwise the data is mapped through `F.linear` and the
mask and dims pass through unchanged. -/
def linear (batch : MaskedBatch) (weight : Tensor) (bias : Option Tensor) :
    Except PyErr MaskedBatch :=
  match batch.dims.getLast? with
  | none => .error .indexError
  | some true => .error .valueError
  | some false => .ok ⟨flinear batch.data weight bias, batch.mask, batch.dims⟩

/-- `tensor.view(*sizes)` (torch): at most one `-1` entry, which is
inferred so the element counts match; otherwise the element counts must
match exactly.  The flat data is unchanged. -/
def tensorView (t : Tensor) (sizes : List Int) : Except PyErr Tensor :=
  if (sizes.filter (fun v => v < 0)).any (fun v => v ≠ -1) then .error .runtimeError
  else if 2 ≤ (sizes.filter (fun v => v = -1)).length then .error .runtimeError
  else if (sizes.filter (fun v => v = -1)).length = 1 then
    (if prodl ((sizes.filter (fun v => v ≠ -1)).map Int.toNat) ≠ 0 ∧
        prodl t.shape % prodl ((sizes.filter (fun v => v ≠ -1)).map Int.toNat) = 0 then
      .ok ⟨sizes.map (fun v =>
             if v = -1 then prodl t.shape / prodl ((sizes.filter (fun w => w ≠ -1)).map Int.toNat)
             else v.toNat),
           t.data⟩
    else .error .runtimeError)
  else
    (if prodl (sizes.map Int.toNat) = prodl t.shape then .ok ⟨sizes.map Int.toNat, t.data⟩
     else .error .runtimeError)

/-- `view` from `src/matchbox/functional.py` lines 347-357.  With no sizes
`sizes[0]` raises `IndexError`; a first size other than `1`, `-1` or the
batch size raises `ValueError`; then `data = batch.data.view(bs, *rest)`
(which may raise `RuntimeError`); after that the `mask_sizes` expression
on line 353 evaluates `len(args)` where no name `args` is bound anywhere
in the function or module, so Python raises `NameError` before any
`MaskedBatch` is constructed. -/
def view (batch : MaskedBatch) (sizes : List Int) : Except PyErr MaskedBatch :=
  match sizes with
  | [] => .error .indexError
  | s0 :: rest =>
      if s0 ≠ 1 ∧ s0 ≠ -1 ∧ s0 ≠ (batch.data.shape.headD 0 : Int) then .error .valueError
      else
        (tensorView batch.data ((batch.data.shape.headD 0 : Int) :: rest)).bind
          (fun _ => .error .nameError)

/-- The patched `TENSOR_TYPE.__add__` (line 535) applied to a tensor and a
`MaskedBatch`: `_inject_arith` dispatches to `lambda a, b: b + a`, i.e. the
masked `__add__` with the tensor as plain right operand. -/
def tensor_add (t : Tensor) (b : MaskedBatch) : MaskedBatch :=
  elementwise_binary (· + ·) b (.plain t)

/-- The patched `TENSOR_TYPE.__mul__` (line 537): dispatches to
`lambda a, b: b * a`, the masked `__mul__` with the tensor as plain right
operand. -/
def tensor_mul (t : Tensor) (b : MaskedBatch) : MaskedBatch :=
  elementwise_binary (· * ·) b (.plain t)

/-- `MaskedBatch.__neg__` (line 180) is assigned
`_elementwise_binary(TENSOR_TYPE.__neg__)`, whose `inner(batch1, batch2,
**kwargs)` takes two required positional arguments.  The unary call
`b.__neg__()` therefore raises `TypeError` (missing argument `batch2`)
before any body code runs. -/
def mb_neg (_ : MaskedBatch) : Except PyErr MaskedBatch := .error .typeError

/-- The patched `TENSOR_TYPE.__sub__` (line 536) applied to a tensor and a
`MaskedBatch`: `_inject_arith` dispatches to `lambda a, b: -b + a`, which
first evaluates `-b` (see `mb_neg`) and then adds the tensor. -/
def tensor_sub (t : Tensor) (b : MaskedBatch) : Except PyErr MaskedBatch :=
  (mb_neg b).map (fun nb => elementwise_binary (· + ·) nb (.plain t))

theorem getD_zipWith {f : Bool → Bool → Bool} :
    ∀ {l1 l2 : List Bool} {i : Nat}, i < l1.length → i < l2.length →
      (List.zipWith f l1 l2).getD i false = f (l1.getD i false) (l2.getD i false) := by
  intro l1
  induction l1 with
  | nil => intro l2 i h1 h2; simp at h1
  | cons a l1 ih =>
    intro l2 i h1 h2
    cases l2 with
    | nil => simp at h2
    | cons c l2 =>
      cases i with
      | zero => rfl
      | succ n =>
        simp only [List.zipWith_cons_cons, List.getD_cons_succ]
        exact ih (by simpa using h1) (by simpa using h2)

/-- `mask + (1 - mask)` is the all-ones tensor of the mask's shape. -/
theorem sync_mask_ones {m : Tensor} (hwf : m.wf) :
    Tensor.map2 (· + ·) m (scalarRsub 1 m) =
      ⟨m.shape, (List.range (prodl m.shape)).map (fun _ => (1 : ℤ))⟩ := by
  have hs : (scalarRsub 1 m).shape = m.shape := rfl
  have hbs : bshape m.shape m.shape = m.shape := by
    simp [bshape, bshapeR_self]
  simp only [Tensor.map2, hs, hbs]
  congr 1
  apply List.map_congr_left
  intro k hk
  have hk2 : k < prodl m.shape := List.mem_range.mp hk
  have hv := unflat_valid hk2
  rw [Tensor.get_valid _ hv,
      Tensor.get_valid (scalarRsub 1 m) (show validIdx (scalarRsub 1 m).shape _ = true from hv)]
  have hlt : flat m.shape (unflat m.shape k) < m.data.length := by
    rw [hwf]; exact flat_lt hv
  have hlt2 : flat m.shape (unflat m.shape k) < (scalarRsub 1 m).data.length := by
    simpa [scalarRsub] using hlt
  rw [hs, List.getD_eq_getElem _ _ hlt, List.getD_eq_getElem _ _ hlt2]
  simp [scalarRsub]

/-- Reading the broadcast `triu(0)` ones factor at `[i, row, col]`. -/
theorem triu_unsq_get (n : Nat) {i row col : Nat} (hrow : row < n) (hcol : col < n) :
    (unsqueeze0 (triuOnes [n, n] 0)).get [i, row, col] =
      if (row : Int) ≤ (col : Int) then 1 else 0 := by
  have hval : validIdx [n, n] [row, col] = true := by
    simp [validIdx, hrow, hcol]
  have hb : bclamp [1, n, n] [i, row, col] = [0, row, col] := by
    rcases eq_or_ne n 1 with h1 | h1
    · subst h1
      have hr : row = 0 := by omega
      have hc : col = 0 := by omega
      simp [bclamp, hr, hc]
    · simp [bclamp, h1]
  have hfl : flat [1, n, n] [0, row, col] = flat [n, n] [row, col] := by
    simp [flat]
  show ((List.range (prodl [n, n])).map _).getD
      (flat [1, n, n] (bclamp [1, n, n] (List.drop ([i, row, col].length - 3) [i, row, col]))) 0
      = _
  have hdrop : List.drop ([i, row, col].length - 3) [i, row, col] = [i, row, col] := by
    simp
  rw [hdrop, hb, hfl, getD_range_map _ (flat_lt hval)]
  simp only [unflat_flat hval]
  simp [List.getD]

theorem axSel_int0_ok {s : Nat} (hs : 0 < s) : axSel s (PyIndex.int 0) = .ok (.coll 0) := by
  simp only [axSel]
  rw [if_pos]
  · rfl
  · exact ⟨by simp, by simpa using hs⟩

theorem axSel_fullSlice_ok (s : Nat) :
    axSel s fullSlice = .ok (.keep (sliceIdxs s none none none)) := by
  simp [axSel, fullSlice]

theorem buildSels_int0_ok : ∀ (sh : List Nat) (ds : List Bool),
    sh.length = ds.length → (∀ s ∈ sh, 0 < s) →
    ∃ sels, buildSels sh (ds.map (fun _ => PyIndex.int 0)) = .ok sels := by
  intro sh
  induction sh with
  | nil =>
    intro ds h1 _
    cases ds with
    | nil => exact ⟨[], rfl⟩
    | cons d ds => simp at h1
  | cons s sh ih =>
    intro ds h1 h2
    cases ds with
    | nil => simp at h1
    | cons d ds =>
      obtain ⟨sels, hsels⟩ := ih ds (by simpa using h1)
        (fun x hx => h2 x (List.mem_cons_of_mem _ hx))
      refine ⟨AxSel.coll 0 :: sels, ?_⟩
      simp only [List.map_cons, buildSels]
      rw [axSel_int0_ok (h2 s (List.mem_cons_self _ _)), hsels]
      rfl

/-- The mask index used by the full (`dim=None`) reduction succeeds on a
well-formed mask: the batch axis keeps its full slice and every other axis
is collapsed at position 0. -/
theorem applyIndex_dimNone_ok (m : Tensor) (ds : List Bool)
    (h1 : m.shape.length = ds.length + 1) (h2 : ∀ s ∈ m.shape.tail, 0 < s) :
    ∃ r, applyIndex m (fullSlice :: ds.map (fun _ => PyIndex.int 0)) = .ok r := by
  cases hsh : m.shape with
  | nil => rw [hsh] at h1; simp at h1
  | cons m0 tail =>
    rw [hsh] at h1 h2
    obtain ⟨sels, hsels⟩ := buildSels_int0_ok tail ds (by simpa using h1)
      (by simpa using h2)
    refine ⟨gather m (AxSel.keep (sliceIdxs m0 none none none) :: sels), ?_⟩
    simp only [applyIndex, hsh, buildSels]
    rw [axSel_fullSlice_ok, hsels]
    rfl

/-- Whether a Python index component is an integer (the components that
collapse an axis). -/
def isIntIx : PyIndex → Bool
  | .int _ => true
  | _ => false

/-- The spec-side description of the resulting `dims` of `getitem`: the
flag of every axis indexed by an integer is dropped, all other flags are
kept in order (axes beyond the index tuple are kept in full). -/
def dropCollapsed (index1 : List PyIndex) (dims : List Bool) : List Bool :=
  (List.range dims.length).filterMap (fun i =>
    if isIntIx (index1.getD i fullSlice) then none else some (dims.getD i false))

theorem dimsAfter_eq_dropCollapsed :
    ∀ (ds : List Bool) (l : List PyIndex), dimsAfter l ds = dropCollapsed l ds := by
  intro ds
  induction ds with
  | nil =>
    intro l
    cases l <;> rfl
  | cons d ds ih =>
    intro l
    cases l with
    | nil =>
      show d :: dimsAfter [] ds = _
      rw [ih []]
      simp only [dropCollapsed, List.length_cons, List.range_succ_eq_map,
        List.filterMap_cons, List.filterMap_map]
      simp [Function.comp_def, isIntIx, fullSlice, List.getD]
    | cons ix rest =>
      show (match ix with | PyIndex.int _ => [] | _ => [d]) ++ dimsAfter rest ds = _
      rw [ih rest]
      simp only [dropCollapsed, List.length_cons, List.range_succ_eq_map,
        List.filterMap_cons, List.filterMap_map]
      simp only [Function.comp_def, List.getD_cons_succ, List.getD_cons_zero]
      cases ix <;> simp [isIntIx]

theorem rewriteOne_isInt {flag : Bool} {ix ix2 : PyIndex}
    (h : rewriteOne flag ix = .ok ix2) : isIntIx ix2 = isIntIx ix := by
  cases flag with
  | false =>
    have hx : ix = ix2 := by simpa [rewriteOne] using h
    subst hx
    rfl
  | true =>
    cases ix with
    | int i =>
      rcases lt_or_ge i 0 with hi | hi
      · simp [rewriteOne, hi] at h
      · have hx : PyIndex.int i = ix2 := by
          simpa [rewriteOne, not_lt.mpr hi] using h
        subst hx
        rfl
    | slice s e st =>
      cases e with
      | none =>
        have hx : PyIndex.slice s none st = ix2 := by simpa [rewriteOne] using h
        subst hx
        rfl
      | some v =>
        rcases lt_or_ge v 0 with hv | hv
        · rcases Decidable.em (st ≠ none ∨ s ≠ none) with hc | hc
          · simp [rewriteOne, hv, hc] at h
          · have hx : PyIndex.slice (some (-v)) none none = ix2 := by
              simpa [rewriteOne, hv, hc] using h
            subst hx
            rfl
        · have hx : PyIndex.slice s (some v) st = ix2 := by
            simpa [rewriteOne, not_lt.mpr hv] using h
          subst hx
          rfl
    | nonei =>
      have hx : PyIndex.nonei = ix2 := by simpa [rewriteOne] using h
      subst hx
      rfl

/-- A negative integer entry on a dynamic axis makes the rewriting loop of
`getitem` raise (possibly an earlier entry raises first). -/
theorem rewriteDyn_err : ∀ (l : List PyIndex) (ds : List Bool) (i : Nat) (j : Int),
    l.get? i = some (PyIndex.int j) → j < 0 → ds.get? i = some true →
    ∃ e, rewriteDyn l ds = .error e := by
  intro l
  induction l with
  | nil => intro ds i j h1 _ _; simp at h1
  | cons ix rest ih =>
    intro ds i j h1 h2 h3
    cases ds with
    | nil =>
      cases i <;> simp at h3
    | cons flag flags =>
      cases i with
      | zero =>
        have hix : ix = PyIndex.int j := by simpa using h1
        have hfl : flag = true := by simpa using h3
        subst hix; subst hfl
        have hone : rewriteOne true (PyIndex.int j) = .error .notImplementedError := by
          simp [rewriteOne, h2]
        exact ⟨.notImplementedError, by simp only [rewriteDyn]; rw [hone]; rfl⟩
      | succ n =>
        obtain ⟨e, he⟩ := ih flags n j (by simpa using h1) h2 (by simpa using h3)
        cases hone : rewriteOne flag ix with
        | error e2 => exact ⟨e2, by simp only [rewriteDyn]; rw [hone]; rfl⟩
        | ok v =>
          refine ⟨e, ?_⟩
          simp only [rewriteDyn]
          rw [hone]
          show (rewriteDyn rest flags).map _ = _
          rw [he]
          rfl

/-- The rewriting loop of `getitem` never changes which entries are
integers, so the resulting `dims` may be computed from the original index. -/
theorem dimsAfter_rewriteDyn : ∀ (l : List PyIndex) (ds : List Bool) (l2 : List PyIndex),
    rewriteDyn l ds = .ok l2 → dimsAfter l2 ds = dimsAfter l ds := by
  intro l
  induction l with
  | nil =>
    intro ds l2 h
    have hl : l2 = [] := by
      cases ds <;> simpa [rewriteDyn] using h.symm
    subst hl
    rfl
  | cons ix rest ih =>
    intro ds l2 h
    cases ds with
    | nil =>
      show dimsAfter l2 [] = dimsAfter (ix :: rest) []
      cases l2 <;> rfl
    | cons flag flags =>
      cases hone : rewriteOne flag ix with
      | error e =>
        rw [show rewriteDyn (ix :: rest) (flag :: flags) = (rewriteOne flag ix).bind
              (fun ix2 => (rewriteDyn rest flags).map (fun r => ix2 :: r)) from rfl,
            hone] at h
        exact absurd h (by simp [Except.bind])
      | ok ix2 =>
        cases hr : rewriteDyn rest flags with
        | error e =>
          rw [show rewriteDyn (ix :: rest) (flag :: flags) = (rewriteOne flag ix).bind
                (fun v => (rewriteDyn rest flags).map (fun r => v :: r)) from rfl,
              hone] at h
          simp only [Except.bind] at h
          rw [hr] at h
          exact absurd h (by simp [Except.map])
        | ok r2 =>
          have hl2 : l2 = ix2 :: r2 := by
            rw [show rewriteDyn (ix :: rest) (flag :: flags) = (rewriteOne flag ix).bind
                  (fun v => (rewriteDyn rest flags).map (fun r => v :: r)) from rfl,
                hone] at h
            simp only [Except.bind] at h
            rw [hr] at h
            simpa [Except.map] using h.symm
          subst hl2
          have hII := rewriteOne_isInt hone
          have htail := ih flags r2 hr
          cases ix2 <;> cases ix <;>
            simp [isIntIx] at hII <;>
            simp [dimsAfter, htail]

/-- A sample batch: two examples of true lengths 1 and 2 padded to extent 2
along one dynamic axis (the padding position holds the garbage value 20). -/
def sampleDyn : MaskedBatch :=
  ⟨⟨[2, 2], [10, 20, 30, 40]⟩, ⟨[2, 2], [1, 0, 1, 1]⟩, [true]⟩

/-- A sample fully static batch of rank 2 (broadcast mask of extent 1). -/
def sampleStatic : MaskedBatch :=
  ⟨⟨[2, 2], [1, 2, 3, 4]⟩, ⟨[2, 1], [1, 1]⟩, [false]⟩

/-- C1: for every elementwise binary operation (`fn` is the lifted numeric
kernel, covering add/sub/mul/truediv and the comparisons lt/le/eq/ne/gt/ge)
applied to two MaskedBatch operands, the result's mask is the elementwise
(broadcast) product of the two masks, its dims are the pointwise OR of the
two dims, and its data is `fn` applied to the two data tensors under
standard broadcasting. -/
theorem C1_elementwise_binary_both_masked (fn : ℤ → ℤ → ℤ) (x y : MaskedBatch) :
    (∀ idx, validIdx (bshape x.mask.shape y.mask.shape) idx = true →
      (elementwise_binary fn x (.mb y)).mask.get idx = x.mask.get idx * y.mask.get idx) ∧
    (∀ i, i < x.dims.length → i < y.dims.length →
      (elementwise_binary fn x (.mb y)).dims.getD i false =
        (x.dims.getD i false || y.dims.getD i false)) ∧
    (∀ idx, validIdx (bshape x.data.shape y.data.shape) idx = true →
      (elementwise_binary fn x (.mb y)).data.get idx = fn (x.data.get idx) (y.data.get idx)) :=
  ⟨fun _ h => map2_get _ _ _ h,
   fun _ h1 h2 => getD_zipWith h1 h2,
   fun _ h => map2_get _ _ _ h⟩

/-- Witness for C1 at concrete operands and index. -/
theorem C1_elementwise_binary_both_masked_witness :
    (elementwise_binary (· + ·) sampleDyn (.mb sampleStatic)).mask.get [1, 0] =
      sampleDyn.mask.get [1, 0] * sampleStatic.mask.get [1, 0] ∧
    (elementwise_binary (· + ·) sampleDyn (.mb sampleStatic)).dims.getD 0 false =
      (sampleDyn.dims.getD 0 false || sampleStatic.dims.getD 0 false) ∧
    (elementwise_binary (· + ·) sampleDyn (.mb sampleStatic)).data.get [1, 0] =
      sampleDyn.data.get [1, 0] + sampleStatic.data.get [1, 0] :=
  ⟨(C1_elementwise_binary_both_masked (· + ·) sampleDyn sampleStatic).1 [1, 0] (by decide),
   (C1_elementwise_binary_both_masked (· + ·) sampleDyn sampleStatic).2.1 0
     (by decide) (by decide),
   (C1_elementwise_binary_both_masked (· + ·) sampleDyn sampleStatic).2.2 [1, 0] (by decide)⟩

/-- C2: the sum reduction multiplies data by the mask before aggregating,
so its result does not depend on the values stored in padding positions:
reducing a batch equals reducing the same batch with padding zeroed, for
every axis choice (including the dynamic ones) and `keepdim`. -/
theorem C2_sum_padding_independent (b : MaskedBatch) (hm : mask01 b.mask)
    (dim0 : Option Int) (keepdim : Bool) :
    reduce torchSum true b dim0 keepdim =
      reduce torchSum true (zeroPadding b) dim0 keepdim := by
  cases dim0 <;>
    simp only [reduce, zeroPadding, map2_mul_mask_absorb hm]

/-- Witness for C2: summing over the dynamic axis of a batch whose padding
holds the garbage value 20 equals summing with the padding zeroed. -/
theorem C2_sum_padding_independent_witness :
    reduce torchSum true sampleDyn (some 1) false =
      reduce torchSum true (zeroPadding sampleDyn) (some 1) false :=
  C2_sum_padding_independent sampleDyn (by decide) (some 1) false

/-- C5: synchronize raises on any dynamic axis; otherwise it returns the
batch with data and dims unchanged and an all-ones mask of the same shape,
and synchronizing the result again returns it unchanged (idempotence). -/
theorem C5_synchronize_seals (b : MaskedBatch) :
    (b.dims.any id = true → synchronize b = .error .valueError) ∧
    (b.dims.any id = false → b.mask.wf →
      ∃ r, synchronize b = .ok r ∧ r.data = b.data ∧ r.dims = b.dims ∧
        r.mask.shape = b.mask.shape ∧ (∀ v ∈ r.mask.data, v = 1) ∧
        synchronize r = .ok r) := by
  constructor
  · intro h
    simp [synchronize, h]
  · intro hany hwf
    refine ⟨⟨b.data, ⟨b.mask.shape, (List.range (prodl b.mask.shape)).map (fun _ => 1)⟩,
            b.dims⟩, ?_, rfl, rfl, rfl, ?_, ?_⟩
    · simp only [synchronize, hany, Bool.false_eq_true, if_false]
      rw [sync_mask_ones hwf]
    · intro v hv
      simp only [List.mem_map] at hv
      obtain ⟨a, _, ha⟩ := hv
      exact ha.symm
    · simp only [synchronize, hany, Bool.false_eq_true, if_false]
      rw [sync_mask_ones
        (show Tensor.wf ⟨b.mask.shape, (List.range (prodl b.mask.shape)).map (fun _ => 1)⟩
          from by simp [Tensor.wf])]

/-- Witness for C5: sealing a static batch and sealing a dynamic one. -/
theorem C5_synchronize_seals_witness :
    synchronize sampleDyn = .error .valueError ∧
    (∃ r, synchronize sampleStatic = .ok r ∧ r.data = sampleStatic.data ∧
      r.dims = sampleStatic.dims ∧ r.mask.shape = sampleStatic.mask.shape ∧
      (∀ v ∈ r.mask.data, v = 1) ∧ synchronize r = .ok r) :=
  ⟨(C5_synchronize_seals sampleDyn).1 (by decide),
   (C5_synchronize_seals sampleStatic).2 (by decide) (by decide)⟩

/-- C6 (code bug): with the injected reflected arithmetic, `t + b` and
`t * b` dispatch to the masked implementation, but `t - b` evaluates `-b`
through `MaskedBatch.__neg__`, which was built with `_elementwise_binary`
(a two-argument `inner`), so the unary call raises `TypeError` instead of
returning the masked difference. -/
theorem C6_reflected_arith_concrete :
    tensor_sub ⟨[1, 2], [5, 7]⟩ ⟨⟨[1, 2], [1, 2]⟩, ⟨[1, 2], [1, 0]⟩, [true]⟩ =
      .error .typeError ∧
    tensor_add ⟨[1, 2], [5, 7]⟩ ⟨⟨[1, 2], [1, 2]⟩, ⟨[1, 2], [1, 0]⟩, [true]⟩ =
      ⟨⟨[1, 2], [6, 9]⟩, ⟨[1, 2], [1, 0]⟩, [true]⟩ ∧
    tensor_mul ⟨[1, 2], [5, 7]⟩ ⟨⟨[1, 2], [1, 2]⟩, ⟨[1, 2], [1, 0]⟩, [true]⟩ =
      ⟨⟨[1, 2], [5, 14]⟩, ⟨[1, 2], [1, 0]⟩, [true]⟩ := by
  refine ⟨rfl, ?_, ?_⟩ <;> decide

/-- C7: an elementwise binary operation between a MaskedBatch and a plain
numeric value (a tensor; a Python scalar is the rank-0 tensor) keeps the
mask and dims of the masked operand unchanged and only transforms data. -/
theorem C7_plain_operand_inherits_mask (fn : ℤ → ℤ → ℤ) (b : MaskedBatch) (t : Tensor) :
    (elementwise_binary fn b (.plain t)).mask = b.mask ∧
    (elementwise_binary fn b (.plain t)).dims = b.dims ∧
    ∀ idx, validIdx (bshape b.data.shape t.shape) idx = true →
      (elementwise_binary fn b (.plain t)).data.get idx = fn (b.data.get idx) (t.get idx) :=
  ⟨rfl, rfl, fun _ h => map2_get _ _ _ h⟩

/-- Witness for C7: adding the plain scalar 5 to a masked batch. -/
theorem C7_plain_operand_inherits_mask_witness :
    (elementwise_binary (· + ·) sampleDyn (.plain ⟨[], [5]⟩)).mask = sampleDyn.mask ∧
    (elementwise_binary (· + ·) sampleDyn (.plain ⟨[], [5]⟩)).dims = sampleDyn.dims ∧
    (elementwise_binary (· + ·) sampleDyn (.plain ⟨[], [5]⟩)).data.get [0, 1] =
      sampleDyn.data.get [0, 1] + Tensor.get ⟨[], [5]⟩ [0, 1] :=
  ⟨(C7_plain_operand_inherits_mask (· + ·) sampleDyn ⟨[], [5]⟩).1,
   (C7_plain_operand_inherits_mask (· + ·) sampleDyn ⟨[], [5]⟩).2.1,
   (C7_plain_operand_inherits_mask (· + ·) sampleDyn ⟨[], [5]⟩).2.2 [0, 1] (by decide)⟩

/-- C9: the linear map raises when the trailing (last non-batch) axis is
dynamic; when it is static it returns `F.linear` of the data with the mask
and dims unchanged. -/
theorem C9_linear_requires_static_trailing (b : MaskedBatch) (w : Tensor)
    (bias : Option Tensor) :
    (b.dims.getLast? = some true → linear b w bias = .error .valueError) ∧
    (b.dims.getLast? = some false →
      ∃ r, linear b w bias = .ok r ∧ r.data = flinear b.data w bias ∧
        r.mask = b.mask ∧ r.dims = b.dims) := by
  constructor
  · intro h
    simp [linear, h]
  · intro h
    exact ⟨⟨flinear b.data w bias, b.mask, b.dims⟩, by simp [linear, h], rfl, rfl, rfl⟩

/-- Witness for C9: a dynamic trailing axis raises, a static one succeeds. -/
theorem C9_linear_requires_static_trailing_witness :
    linear sampleDyn ⟨[3, 2], [1, 0, 0, 1, 1, 1]⟩ none = .error .valueError ∧
    (∃ r, linear sampleStatic ⟨[3, 2], [1, 0, 0, 1, 1, 1]⟩ none = .ok r ∧
      r.data = flinear sampleStatic.data ⟨[3, 2], [1, 0, 0, 1, 1, 1]⟩ none ∧
      r.mask = sampleStatic.mask ∧ r.dims = sampleStatic.dims) :=
  ⟨(C9_linear_requires_static_trailing sampleDyn ⟨[3, 2], [1, 0, 0, 1, 1, 1]⟩ none).1
     (by decide),
   (C9_linear_requires_static_trailing sampleStatic ⟨[3, 2], [1, 0, 0, 1, 1, 1]⟩ none).2
     (by decide)⟩

/-- C3: reducing to a per-example scalar (`dim=None`) with a
non-zero-preserving kernel (mean/std, `zero_preserving=False`) raises when
any axis is dynamic; with no dynamic axes, or with the zero-preserving sum
kernel, the full reduction returns a value (on a well-formed mask). -/
theorem C3_scalar_reduce_dynamic_raises (fn : Tensor → Option Int → Bool → Tensor)
    (b : MaskedBatch) (keepdim : Bool) :
    (b.dims.any id = true →
      reduce fn false b none keepdim = .error .notImplementedError) ∧
    (b.mask.shape.length = b.dims.length + 1 → (∀ s ∈ b.mask.shape.tail, 0 < s) →
      (b.dims.any id = false → ∃ r, reduce fn false b none keepdim = .ok r) ∧
      (∃ r, reduce fn true b none keepdim = .ok r)) := by
  constructor
  · intro h
    simp [reduce, h]
  · intro h1 h2
    obtain ⟨mret, hmret⟩ := applyIndex_dimNone_ok b.mask b.dims h1 h2
    constructor
    · intro hany
      refine ⟨⟨fn (Tensor.map2 (· * ·) b.data b.mask) none keepdim, mret, []⟩, ?_⟩
      simp only [reduce, hany, Bool.and_false, Bool.not_false, Bool.true_and,
        Bool.false_eq_true, if_false]
      rw [hmret]
      rfl
    · refine ⟨⟨fn (Tensor.map2 (· * ·) b.data b.mask) none keepdim, mret, []⟩, ?_⟩
      simp only [reduce, Bool.not_true, Bool.false_and, Bool.false_eq_true, if_false]
      rw [hmret]
      rfl

/-- Witness for C3: a full mean-style reduction of a dynamic batch raises,
of a static batch succeeds; a full sum of the dynamic batch succeeds. -/
theorem C3_scalar_reduce_dynamic_raises_witness :
    reduce torchSum false sampleDyn none false = .error .notImplementedError ∧
    (∃ r, reduce torchSum false sampleStatic none false = .ok r) ∧
    (∃ r, reduce torchSum true sampleDyn none false = .ok r) :=
  ⟨(C3_scalar_reduce_dynamic_raises torchSum sampleDyn false).1 (by decide),
   ((C3_scalar_reduce_dynamic_raises torchSum sampleStatic false).2
      (by decide) (by decide)).1 (by decide),
   ((C3_scalar_reduce_dynamic_raises torchSum sampleDyn false).2
      (by decide) (by decide)).2⟩

/-- C4: on a rank-3 batch with square non-batch shape, `causal_mask` with
`in_dim=1, out_dim=2` returns the batch with data unchanged, both
participating axes flagged dynamic, and a mask that is zero wherever the
row index exceeds the column index and equal to the input mask elsewhere. -/
theorem C4_causal_mask_triangular (b : MaskedBatch) (bs n mb m1 m2 : Nat)
    (hd : b.data.shape = [bs, n, n]) (hm : b.mask.shape = [mb, m1, m2])
    (hmb : 0 < mb) (h1 : m1 ≤ n) (h2 : m2 ≤ n) (hdims : b.dims.length = 2) :
    ∃ r, causal_mask b 1 2 = .ok r ∧ r.data = b.data ∧ r.dims = [true, true] ∧
      ∀ i row col, i < mb → row < n → col < n →
        (col < row → r.mask.get [i, row, col] = 0) ∧
        (row ≤ col → r.mask.get [i, row, col] = b.mask.get [i, row, col]) := by
  have htail : b.data.shape.tail = [n, n] := by rw [hd]; rfl
  obtain ⟨d0, d1, hds⟩ := List.length_eq_two.mp hdims
  have hcm : causal_mask b 1 2 = .ok ⟨b.data,
      Tensor.map2 (· * ·) b.mask (unsqueeze0 (triuOnes b.data.shape.tail 0)),
      b.dims.enum.map (fun p => if p.1 + 1 = 1 ∨ p.1 + 1 = 2 then true else p.2)⟩ := by
    simp [causal_mask]
  refine ⟨_, hcm, rfl, ?_, ?_⟩
  · show b.dims.enum.map _ = _
    rw [hds]
    rfl
  · intro i row col hi hrow hcol
    have hbsh : bshape b.mask.shape (unsqueeze0 (triuOnes b.data.shape.tail 0)).shape =
        [mb, n, n] := by
      rw [hm, htail]
      show bshape [mb, m1, m2] [1, n, n] = [mb, n, n]
      have e1 : max mb 1 = mb := Nat.max_eq_left hmb
      have e2 : max m1 n = n := Nat.max_eq_right h1
      have e3 : max m2 n = n := Nat.max_eq_right h2
      simp [bshape, bshapeR, e1, e2, e3]
    have hv : validIdx (bshape b.mask.shape
        (unsqueeze0 (triuOnes b.data.shape.tail 0)).shape) [i, row, col] = true := by
      rw [hbsh]
      simp [validIdx, hi, hrow, hcol]
    constructor
    · intro hlt
      rw [map2_get _ _ _ hv, htail, triu_unsq_get n hrow hcol,
          if_neg (by exact_mod_cast not_le.mpr hlt)]
      ring
    · intro hle
      rw [map2_get _ _ _ hv, htail, triu_unsq_get n hrow hcol,
          if_pos (by exact_mod_cast hle)]
      ring

/-- Witness for C4: a 3×3 static square batch. -/
theorem C4_causal_mask_triangular_witness :
    ∃ r, causal_mask ⟨⟨[1, 3, 3], [1, 2, 3, 4, 5, 6, 7, 8, 9]⟩, ⟨[1, 1, 1], [1]⟩,
          [false, false]⟩ 1 2 = .ok r ∧
      r.data = (⟨⟨[1, 3, 3], [1, 2, 3, 4, 5, 6, 7, 8, 9]⟩, ⟨[1, 1, 1], [1]⟩,
          [false, false]⟩ : MaskedBatch).data ∧
      r.dims = [true, true] ∧
      ∀ i row col, i < 1 → row < 3 → col < 3 →
        (col < row → r.mask.get [i, row, col] = 0) ∧
        (row ≤ col → r.mask.get [i, row, col] =
          (⟨⟨[1, 3, 3], [1, 2, 3, 4, 5, 6, 7, 8, 9]⟩, ⟨[1, 1, 1], [1]⟩,
           [false, false]⟩ : MaskedBatch).mask.get [i, row, col]) :=
  C4_causal_mask_triangular _ 1 3 1 1 1 (by decide) (by decide) (by decide)
    (by decide) (by decide) (by decide)

/-- Unfolding `getitem` once its two guard checks have passed. -/
theorem getitem_unfold (b : MaskedBatch) (index : List PyIndex)
    (hhead : index.head? = some fullSlice)
    (hnone : index.contains PyIndex.nonei = false) :
    getitem b index = (applyIndex b.data index).bind (fun data =>
      (rewriteDyn index.tail b.dims).bind (fun index1 =>
        (applyIndex b.mask (maskIndexOf (fullSlice :: index1) (true :: b.dims))).map
          (fun mask => ⟨data, mask, dimsAfter index1 b.dims⟩))) := by
  have h2 : ¬ PyIndex.nonei ∈ index := by simpa using hnone
  simp [getitem, hhead, h2]

/-- C8: indexing raises unless the batch axis is selected with the full
slice `:`; it raises whenever a dynamic axis is indexed with a negative
integer; and on success the resulting `dims` drops the flag of every axis
collapsed by an integer index, keeping the others in order. -/
theorem C8_getitem_contract (b : MaskedBatch) (index : List PyIndex) :
    (index.head? ≠ some fullSlice → getitem b index = .error .valueError) ∧
    ((∃ i j, index.get? (i + 1) = some (PyIndex.int j) ∧ j < 0 ∧
        b.dims.get? i = some true) →
      ∀ r, getitem b index ≠ .ok r) ∧
    (∀ r, getitem b index = .ok r → r.dims = dropCollapsed index.tail b.dims) := by
  refine ⟨?_, ?_, ?_⟩
  · intro h
    simp [getitem, h]
  · rintro ⟨i, j, h1, h2, h3⟩ r hok
    by_cases hhead : index.head? = some fullSlice
    case neg => simp [getitem, hhead] at hok
    case pos =>
      by_cases hnone : index.contains PyIndex.nonei
      · have hmem : PyIndex.nonei ∈ index := by simpa using hnone
        simp [getitem, hhead, hmem] at hok
      · rw [getitem_unfold b index hhead (by simpa using hnone)] at hok
        cases hdata : applyIndex b.data index with
        | error e =>
          rw [hdata, error_bind] at hok
          exact Except.noConfusion hok
        | ok d =>
          rw [hdata, ok_bind] at hok
          have htail : index.tail.get? i = some (PyIndex.int j) := by
            cases index with
            | nil => simp at hhead
            | cons ix0 rest => simpa using h1
          obtain ⟨e, he⟩ := rewriteDyn_err index.tail b.dims i j htail h2 h3
          rw [he, error_bind] at hok
          exact Except.noConfusion hok
  · intro r hok
    by_cases hhead : index.head? = some fullSlice
    case neg => simp [getitem, hhead] at hok
    case pos =>
      by_cases hnone : index.contains PyIndex.nonei
      · have hmem : PyIndex.nonei ∈ index := by simpa using hnone
        simp [getitem, hhead, hmem] at hok
      · rw [getitem_unfold b index hhead (by simpa using hnone)] at hok
        cases hdata : applyIndex b.data index with
        | error e =>
          rw [hdata, error_bind] at hok
          exact Except.noConfusion hok
        | ok d =>
          rw [hdata, ok_bind] at hok
          cases hrew : rewriteDyn index.tail b.dims with
          | error e =>
            rw [hrew, error_bind] at hok
            exact Except.noConfusion hok
          | ok index1 =>
            rw [hrew, ok_bind] at hok
            cases hmask : applyIndex b.mask
                (maskIndexOf (fullSlice :: index1) (true :: b.dims)) with
            | error e =>
              rw [hmask, error_map] at hok
              exact Except.noConfusion hok
            | ok m =>
              rw [hmask, ok_map] at hok
              have hr : r = ⟨d, m, dimsAfter index1 b.dims⟩ := by
                injection hok with hh
                rw [hh]
              rw [hr]
              show dimsAfter index1 b.dims = _
              rw [dimsAfter_rewriteDyn index.tail b.dims index1 hrew,
                  dimsAfter_eq_dropCollapsed]

/-- Witness for C8 at concrete indexings of the dynamic sample batch. -/
theorem C8_getitem_contract_witness :
    getitem sampleDyn [PyIndex.int 0] = .error .valueError ∧
    getitem sampleDyn [fullSlice, PyIndex.int (-1)] ≠ .ok sampleDyn ∧
    (⟨⟨[2], [20, 40]⟩, ⟨[2], [0, 1]⟩, ([] : List Bool)⟩ : MaskedBatch).dims =
      dropCollapsed [PyIndex.int 1] sampleDyn.dims :=
  ⟨(C8_getitem_contract sampleDyn [PyIndex.int 0]).1 (by decide),
   (C8_getitem_contract sampleDyn [fullSlice, PyIndex.int (-1)]).2.1
     ⟨0, -1, by decide, by decide, by decide⟩ sampleDyn,
   (C8_getitem_contract sampleDyn [fullSlice, PyIndex.int 1]).2.2
     ⟨⟨[2], [20, 40]⟩, ⟨[2], [0, 1]⟩, []⟩ (by decide)⟩

/-- C10: whenever the first requested view size is legal (1, -1 or the
batch size) and the data reshape itself succeeds, `view` raises
`NameError` (the `mask_sizes` expression references the unbound name
`args`); and `view` never returns a MaskedBatch for any input. -/
theorem C10_view_raises_nameError (b : MaskedBatch) (sizes : List Int) :
    ((∃ s0 rest, sizes = s0 :: rest ∧
        (s0 = 1 ∨ s0 = -1 ∨ s0 = (b.data.shape.headD 0 : Int)) ∧
        ∃ t, tensorView b.data ((b.data.shape.headD 0 : Int) :: rest) = .ok t) →
      view b sizes = .error .nameError) ∧
    ∀ r, view b sizes ≠ .ok r := by
  constructor
  · rintro ⟨s0, rest, rfl, hs0, t, ht⟩
    have hcond : ¬(s0 ≠ 1 ∧ s0 ≠ -1 ∧ s0 ≠ (b.data.shape.headD 0 : Int)) := by
      rcases hs0 with h | h | h <;> simp [h]
    simp only [view, if_neg hcond]
    rw [ht]
    rfl
  · intro r hok
    cases sizes with
    | nil => exact absurd hok (by simp [view])
    | cons s0 rest =>
      by_cases hc : s0 ≠ 1 ∧ s0 ≠ -1 ∧ s0 ≠ (b.data.shape.headD 0 : Int)
      · simp only [view] at hok
        rw [if_pos hc] at hok
        exact Except.noConfusion hok
      · simp only [view] at hok
        rw [if_neg hc] at hok
        cases ht : tensorView b.data ((b.data.shape.headD 0 : Int) :: rest) with
        | error e =>
          rw [ht, error_bind] at hok
          exact Except.noConfusion hok
        | ok t =>
          rw [ht, ok_bind] at hok
          exact Except.noConfusion hok

/-- Witness for C10: a legal first size with a succeeding reshape ends in
`NameError`, and a concrete `view` call is not `ok`. -/
theorem C10_view_raises_nameError_witness :
    view sampleDyn [1, -1] = .error .nameError ∧
    view sampleDyn [7] ≠ .ok sampleDyn :=
  ⟨(C10_view_raises_nameError sampleDyn [1, -1]).1
     ⟨1, [-1], rfl, Or.inl rfl, ⟨[2, 2], [10, 20, 30, 40]⟩, by decide⟩,
   (C10_view_raises_nameError sampleDyn [7]).2 sampleDyn⟩

end Matchbox
